import Mathlib

/-!
Verification development for the telemetry-visualization client
(`websocket_vis` state merge / drawable decoding, the SVG visualizer's
coordinate transform, and the stream-viewer retry automaton).

Numbers are modelled by `ℚ` (exact rational arithmetic in place of JS
doubles; the claims under study are algebraic, not about IEEE rounding).
Fallible operations (thrown exceptions) are modelled by `Option`.
-/

namespace Dimos

/-! ## Base64 codec (the browser `atob` primitive used by `Grid.decode`)

Modelled after the forgiving-base64 decode that `atob` performs: ASCII
whitespace is removed, then up to two trailing `=` padding characters are
stripped when the length is a multiple of four, a remaining length of
1 mod 4 or any non-alphabet character is an error, and each group of
sextets is reassembled into bytes. -/

/-- Sextet value of a base64 alphabet character; `none` for any other character. -/
def b64Char (c : Char) : Option Nat :=
  if 'A' ≤ c ∧ c ≤ 'Z' then some (c.toNat - 65)
  else if 'a' ≤ c ∧ c ≤ 'z' then some (c.toNat - 97 + 26)
  else if '0' ≤ c ∧ c ≤ '9' then some (c.toNat - 48 + 52)
  else if c = '+' then some 62
  else if c = '/' then some 63
  else none

/-- ASCII whitespace removed by forgiving-base64 decoding. -/
def b64Ws (c : Char) : Bool :=
  c == ' ' || c == '\t' || c == '\n' || c == '\r' || c == '\x0c'

/-- Strip up to two trailing `=` padding characters (only when the input
length is a multiple of four, as in forgiving-base64). -/
def stripPad (cs : List Char) : List Char :=
  if cs.length % 4 = 0 then
    match cs.reverse with
    | '=' :: '=' :: rest => rest.reverse
    | '=' :: rest => rest.reverse
    | _ => cs
  else cs

/-- Reassemble one final group of 2, 3 or 4 sextets into 1, 2 or 3 bytes. -/
def b64Group : List Nat → List Nat
  | [a, b] => [a * 4 + b / 16]
  | [a, b, c] => [a * 4 + b / 16, b % 16 * 16 + c / 4]
  | [a, b, c, d] => [a * 4 + b / 16, b % 16 * 16 + c / 4, c % 4 * 64 + d]
  | _ => []

/-- Reassemble a sextet stream into bytes, four sextets at a time. -/
def sextetsToBytes : List Nat → List Nat
  | a :: b :: c :: d :: rest => b64Group [a, b, c, d] ++ sextetsToBytes rest
  | rest => b64Group rest

/-- Forgiving-base64 decode (`atob`): `none` models the thrown
`InvalidCharacterError` on malformed input. -/
def base64Decode (s : String) : Option (List Nat) :=
  let cs := stripPad (s.data.filter (fun c => !b64Ws c))
  if cs.length % 4 = 1 then none
  else (cs.mapM b64Char).map sextetsToBytes

/-! ## Typed numeric arrays and the Grid codec (`types.ts`) -/

/-- Model of the JS typed-array value held in `Grid.data`.  Integer dtypes
carry their decoded values; for `f32`/`f64` the elements are the raw
little-endian bit patterns (IEEE-754 value semantics are not needed by any
claim, only element counts).  `new Arr(raw.buffer)` reinterprets using the
platform byte order, taken to be little-endian here. -/
inductive TypedArray where
  | f32 : List Int → TypedArray
  | f64 : List Int → TypedArray
  | i32 : List Int → TypedArray
  | i8 : List Int → TypedArray
  | u8 : List Int → TypedArray
  deriving DecidableEq

/-- Element list of a typed array. -/
def TypedArray.toList : TypedArray → List Int
  | .f32 xs => xs
  | .f64 xs => xs
  | .i32 xs => xs
  | .i8 xs => xs
  | .u8 xs => xs

/-- Element count of a typed array (the JS `length` property). -/
def TypedArray.length (t : TypedArray) : Nat := t.toList.length

/-- Signed 8-bit value of a byte. -/
def i8val (b : Nat) : Int := if b < 128 then (b : Int) else (b : Int) - 256

/-- Little-endian unsigned 32-bit value of four bytes. -/
def le4 (b0 b1 b2 b3 : Nat) : Nat := b0 + 256 * b1 + 65536 * b2 + 16777216 * b3

/-- Signed 32-bit value of four little-endian bytes. -/
def i32val (b0 b1 b2 b3 : Nat) : Int :=
  let v := le4 b0 b1 b2 b3
  if v < 2147483648 then (v : Int) else (v : Int) - 4294967296

/-- Group a byte buffer into little-endian 32-bit signed integers
(the trailing `_` arm is unreachable under the buffer-length guard of the
typed-array constructor). -/
def toI32List : List Nat → List Int
  | b0 :: b1 :: b2 :: b3 :: rest => i32val b0 b1 b2 b3 :: toI32List rest
  | _ => []

/-- Group a byte buffer into 32-bit little-endian patterns (f32 elements). -/
def toF32List : List Nat → List Int
  | b0 :: b1 :: b2 :: b3 :: rest => (le4 b0 b1 b2 b3 : Int) :: toF32List rest
  | _ => []

/-- Group a byte buffer into 64-bit little-endian patterns (f64 elements). -/
def toF64List : List Nat → List Int
  | b0 :: b1 :: b2 :: b3 :: b4 :: b5 :: b6 :: b7 :: rest =>
      ((le4 b0 b1 b2 b3 + 4294967296 * le4 b4 b5 b6 b7 : Nat) : Int) :: toF64List rest
  | _ => []

/-- Wire form of a grid: `{type:"grid", shape:[rows,cols], dtype, compressed, data}`.
Shape entries are array dimensions, modelled as naturals; `dtype` is kept as a
string because the decoder must handle unrecognized tags at runtime. -/
structure EncodedGrid where
  shape : List Nat
  dtype : String
  compressed : Bool
  data : String
  deriving DecidableEq

/-- Decoded grid: a typed numeric array plus the declared shape. -/
structure Grid where
  data : TypedArray
  shape : List Nat
  deriving DecidableEq

/-- Bytes per element of the typed-array constructor selected by
`DTYPE[dtype] || Uint8Array` (the final branch is the `Uint8Array` fallback). -/
def bytesPerElement (dtype : String) : Nat :=
  if dtype = "f32" then 4
  else if dtype = "f64" then 8
  else if dtype = "i32" then 4
  else if dtype = "i8" then 1
  else 1

/-- Reinterpret a raw byte buffer as the typed array selected by `dtype`,
with the `Uint8Array` fallback for unrecognized tags.  `none` models the
`RangeError` thrown by a multi-byte typed-array constructor when the buffer
length is not a multiple of the element size. -/
def reinterpret (dtype : String) (bytes : List Nat) : Option TypedArray :=
  if dtype = "f32" then
    if bytes.length % 4 = 0 then some (.f32 (toF32List bytes)) else none
  else if dtype = "f64" then
    if bytes.length % 8 = 0 then some (.f64 (toF64List bytes)) else none
  else if dtype = "i32" then
    if bytes.length % 4 = 0 then some (.i32 (toI32List bytes)) else none
  else if dtype = "i8" then some (.i8 (bytes.map i8val))
  else some (.u8 (bytes.map (fun (b : Nat) => (b : Int))))

/-- Model of `Grid.decode`: base64-decode the payload with `atob`, then
reinterpret the raw bytes through `DTYPE[msg.dtype] || Uint8Array`, and pair
the result with the declared shape (passed through unchanged). -/
def Grid.decode (msg : EncodedGrid) : Option Grid :=
  match base64Decode msg.data with
  | none => none
  | some bytes => (reinterpret msg.dtype bytes).map fun d => { data := d, shape := msg.shape }

/-- Wire form of a vector: `{type:"vector", c:number[]}`. -/
structure EncodedVector where
  c : List ℚ
  deriving DecidableEq

/-- Decoded vector: an ordered coordinate tuple. -/
structure Vector where
  coords : List ℚ
  deriving DecidableEq

/-- Model of `Vector.decode`: `new Vector(...data.c)`. -/
def Vector.decode (data : EncodedVector) : Vector := ⟨data.c⟩

/-- Wire form of a path: `{type:"path", points:[[x,y],...]}`. -/
structure EncodedPath where
  points : List (ℚ × ℚ)
  deriving DecidableEq

/-- Decoded path: an ordered sequence of coordinate pairs. -/
structure Path where
  coords : List (ℚ × ℚ)
  deriving DecidableEq

/-- Model of `Path.decode`: `new Path(data.points)`. -/
def Path.decode (data : EncodedPath) : Path := ⟨data.points⟩

/-- Wire form of a costmap: nested grid and origin records plus scalars. -/
structure EncodedCostmap where
  grid : EncodedGrid
  origin : EncodedVector
  resolution : ℚ
  origin_theta : ℚ
  deriving DecidableEq

/-- Decoded costmap. -/
structure Costmap where
  grid : Grid
  origin : Vector
  resolution : ℚ
  origin_theta : ℚ
  deriving DecidableEq

/-- Model of `Costmap.decode`: decode the nested grid and origin, carry the
scalars through; fails exactly when the nested grid decode fails. -/
def Costmap.decode (data : EncodedCostmap) : Option Costmap :=
  (Grid.decode data.grid).map fun g =>
    { grid := g, origin := Vector.decode data.origin,
      resolution := data.resolution, origin_theta := data.origin_theta }

/-- Decoded drawable union (runtime class instances in the source). -/
inductive Drawable where
  | costmap : Costmap → Drawable
  | vector : Vector → Drawable
  | grid : Grid → Drawable
  | path : Path → Drawable
  deriving DecidableEq

/-- A wire record as `decode` receives it at runtime: a dynamic object whose
`type` discriminant may be absent (`none`) or arbitrary, and whose payload
fields may or may not be present/well-shaped for any given variant. -/
structure EncodedSomething where
  etype : Option String
  costmapPayload : Option EncodedCostmap
  vectorPayload : Option EncodedVector
  gridPayload : Option EncodedGrid
  pathPayload : Option EncodedPath
  deriving DecidableEq

/-- Result of the drawable decoder: a decoded drawable, the `"UNKNOWN"`
sentinel string, or `err` for an exception thrown by a nested decode
(bad base64 / missing payload fields). -/
inductive DecodeResult where
  | ok : Drawable → DecodeResult
  | unknown : DecodeResult
  | err : DecodeResult
  deriving DecidableEq

/-- Model of `decode` (decoder.ts): dispatch strictly on the `type`
discriminant; everything else falls through to the `"UNKNOWN"` sentinel. -/
def decode (data : EncodedSomething) : DecodeResult :=
  if data.etype = some "costmap" then
    match data.costmapPayload with
    | some p =>
      match Costmap.decode p with
      | some c => .ok (.costmap c)
      | none => .err
    | none => .err
  else if data.etype = some "vector" then
    match data.vectorPayload with
    | some p => .ok (.vector (Vector.decode p))
    | none => .err
  else if data.etype = some "grid" then
    match data.gridPayload with
    | some p =>
      match Grid.decode p with
      | some g => .ok (.grid g)
      | none => .err
    | none => .err
  else if data.etype = some "path" then
    match data.pathPayload with
    | some p => .ok (.path (Path.decode p))
    | none => .err
  else .unknown

/-! ## Coordinate transform (SVG visualizer component)

The visualizer derives a world-to-pixel affine map from the first Costmap in
the state and the viewport size, via two `d3.scaleLinear` maps.  A linear
scale with domain `[d0, d1]` and range `[r0, r1]` sends `x` to
`r0 + (x - d0) * (r1 - r0) / (d1 - d0)`, and its `invert` is the same map
with domain and range swapped. -/

/-- Two-point linear scale (`d3.scaleLinear().domain([d0,d1]).range([r0,r1])`). -/
def linScale (d0 d1 r0 r1 x : ℚ) : ℚ := r0 + (x - d0) * (r1 - r0) / (d1 - d0)

/-- Row count read from `grid.shape` (`const [rows, cols] = shape`). -/
def costmapRows (c : Costmap) : Nat := c.grid.shape.getD 0 0

/-- Column count read from `grid.shape`. -/
def costmapCols (c : Costmap) : Nat := c.grid.shape.getD 1 0

/-- World x of the costmap origin (`origin.coords[0]`). -/
def originX (c : Costmap) : ℚ := c.origin.coords.getD 0 0

/-- World y of the costmap origin (`origin.coords[1]`). -/
def originY (c : Costmap) : ℚ := c.origin.coords.getD 1 0

/-- The eight scale parameters derived in the visualizer's `useMemo`:
cell size `min(width/cols, height/rows)`, centred offsets, x domain
`[origin.x, origin.x + cols*resolution]` onto `[offsetX, offsetX+gridW]`,
and y domain `[origin.y, origin.y + rows*resolution]` onto the inverted
pixel range `[offsetY+gridH, offsetY]`. -/
structure TransformParams where
  xd0 : ℚ
  xd1 : ℚ
  xr0 : ℚ
  xr1 : ℚ
  yd0 : ℚ
  yd1 : ℚ
  yr0 : ℚ
  yr1 : ℚ

/-- Build the transform parameters from a costmap and the viewport size. -/
def transformOf (c : Costmap) (width height : ℚ) : TransformParams :=
  let rows : ℚ := (costmapRows c : ℚ)
  let cols : ℚ := (costmapCols c : ℚ)
  let cell := min (width / cols) (height / rows)
  let gridW := cols * cell
  let gridH := rows * cell
  let offsetX := (width - gridW) / 2
  let offsetY := (height - gridH) / 2
  { xd0 := originX c, xd1 := originX c + cols * c.resolution
    xr0 := offsetX, xr1 := offsetX + gridW
    yd0 := originY c, yd1 := originY c + rows * c.resolution
    yr0 := offsetY + gridH, yr1 := offsetY }

/-- The `worldToPx` closure: `[xScale(x), yScale(y)]`. -/
def worldToPx (c : Costmap) (width height : ℚ) (p : ℚ × ℚ) : ℚ × ℚ :=
  let t := transformOf c width height
  (linScale t.xd0 t.xd1 t.xr0 t.xr1 p.1, linScale t.yd0 t.yd1 t.yr0 t.yr1 p.2)

/-- The `pxToWorld` closure: `[xScale.invert(x), yScale.invert(y)]`. -/
def pxToWorld (c : Costmap) (width height : ℚ) (p : ℚ × ℚ) : ℚ × ℚ :=
  let t := transformOf c width height
  (linScale t.xr0 t.xr1 t.xd0 t.xd1 p.1, linScale t.yr0 t.yr1 t.yd0 t.yd1 p.2)

/-- First Costmap among the state values
(`Object.values(state).find((d) => d instanceof Costmap)`). -/
def findCostmap : List (String × Drawable) → Option Costmap
  | [] => none
  | (_, .costmap c) :: _ => some c
  | _ :: rest => findCostmap rest

/-- The `useMemo` result: the world-to-pixel closure when a reference
Costmap is present, `undefined` (`none`) otherwise. -/
def stateWorldToPx (state : List (String × Drawable)) (width height : ℚ) :
    Option (ℚ → ℚ → ℚ × ℚ) :=
  (findCostmap state).map fun c => fun x y => worldToPx c width height (x, y)

/-- Point mapping used by `visualisePath` and `visualiseVector`:
`wp ? wp(x, y) : [width / 2 + x, height / 2 - y]`. -/
def pathPointPx (wp : Option (ℚ → ℚ → ℚ × ℚ)) (width height : ℚ) (p : ℚ × ℚ) : ℚ × ℚ :=
  match wp with
  | some f => f p.1 p.2
  | none => (width / 2 + p.1, height / 2 - p.2)

/-- Pixel points produced by `visualisePath`: `none` when the path has fewer
than two points (the early `return`), otherwise every coordinate mapped
through `wp` or the viewport-centre fallback. -/
def visualisePathPoints (wp : Option (ℚ → ℚ → ℚ × ℚ)) (width height : ℚ)
    (coords : List (ℚ × ℚ)) : Option (List (ℚ × ℚ)) :=
  if coords.length < 2 then none
  else some (coords.map (pathPointPx wp width height))

/-- Marker centre produced by `visualiseVector`:
`wp ? wp(v[0], v[1]) : [width / 2 + v[0], height / 2 - v[1]]`. -/
def visualiseVectorPx (wp : Option (ℚ → ℚ → ℚ × ℚ)) (width height : ℚ)
    (coords : List ℚ) : ℚ × ℚ :=
  match wp with
  | some f => f (coords.getD 0 0) (coords.getD 1 0)
  | none => (width / 2 + coords.getD 0 0, height / 2 - coords.getD 1 0)

/-- World coordinates computed by `Visualizer.handleGlobalClick` for a click
at SVG point `pt`: it looks for a Costmap in the current state and, finding
none, returns without invoking the callback (`if (!costmap) return`),
modelled as `none`; otherwise it applies the swapped-domain linear scales,
which coincide with `pxToWorld`. -/
def handleGlobalClickWorld (state : List (String × Drawable)) (width height : ℚ)
    (pt : ℚ × ℚ) : Option (ℚ × ℚ) :=
  match findCostmap state with
  | none => none
  | some c => some (pxToWorld c width height pt)

/-! ## JSON-like values and the state merge engine (`init.ts`)

`JVal` models the runtime values the merge engine meets: primitives, JS
arrays, object-shaped values (plain objects and class instances alike, as a
key-ordered association list — JS objects cannot hold duplicate keys), and
typed arrays (integer-indexed objects whose out-of-range index writes are
silent no-ops).  Key enumeration order is the stored entry order; the
program's objects use non-integer keys, whose `for..in` order is insertion
order, and typed arrays enumerate their indices in ascending order. -/

inductive JVal where
  | null : JVal
  | bool : Bool → JVal
  | num : ℚ → JVal
  | str : String → JVal
  | arr : List JVal → JVal
  | obj : List (String × JVal) → JVal
  | typedArr : List ℚ → JVal

/-- The merge condition `typeof v === "object" && v !== null && !Array.isArray(v)`:
true exactly for object-shaped values and typed arrays. -/
def isMergeable : JVal → Bool
  | .obj _ => true
  | .typedArr _ => true
  | _ => false

/-- First-occurrence association-list lookup (JS property read). -/
def lookupKey : List (String × JVal) → String → Option JVal
  | [], _ => none
  | (k', v) :: es, k => if k = k' then some v else lookupKey es k

/-- JS property write on a plain object: overwrite in place preserving key
order if the key exists, append the new key otherwise. -/
def setEntries : List (String × JVal) → String → JVal → List (String × JVal)
  | [], k, v => [(k, v)]
  | (k', v') :: es, k, v =>
    if k = k' then (k', v) :: es else (k', v') :: setEntries es k v

/-- Property read `container[key]`.  Typed arrays carry only numeric
indices in this program; a read used by the merge loop on them is modelled
as absent (their element reads happen through the typed-array merge case). -/
def getKey : JVal → String → Option JVal
  | .obj es, k => lookupKey es k
  | _, _ => none

/-- Property write `container[key] = v`.  On non-objects this is a no-op:
the merge loop only ever writes into object destinations (the top-level
destination is the spread copy of the server state and recursive
destinations pass the object-shaped merge condition). -/
def setKey : JVal → String → JVal → JVal
  | .obj es, k, v => .obj (setEntries es k v)
  | d, _, _ => d

/-- Element-wise index merge of one typed array into another: `for (i in src)
dest[i] = src[i]` — indices beyond the destination length are silently
dropped (typed arrays ignore out-of-range index writes), indices beyond the
source length keep the destination element, and the destination length is
preserved. -/
def overlayList : List ℚ → List ℚ → List ℚ
  | _, [] => []
  | [], ds => ds
  | x :: xs, _ :: ds => x :: overlayList xs ds

mutual

/-- Model of `deepMerge(source, destination)` from init.ts: iterate the
source's own enumerable keys in order; when both the source value and the
existing destination value pass the object-shape test, recurse, otherwise
copy the source value over.  The (mutated) destination is returned.  A
non-object source has no enumerable entries to iterate (the program never
passes arrays or strings as a merge source). -/
def deepMerge : JVal → JVal → JVal
  | .obj ses, dest => mergeEntries ses dest
  | .typedArr xs, .typedArr ds => .typedArr (overlayList xs ds)
  | _, dest => dest

/-- The `for (const key in source)` loop body of `deepMerge`. -/
def mergeEntries : List (String × JVal) → JVal → JVal
  | [], dest => dest
  | (k, sv) :: rest, dest =>
    let dest' :=
      match getKey dest k with
      | some dv =>
        if isMergeable sv && isMergeable dv then setKey dest k (deepMerge sv dv)
        else setKey dest k sv
      | none => setKey dest k sv
    mergeEntries rest dest'

end

/-- Well-formed runtime values: every object level has pairwise-distinct
keys (as every value produced by JSON parsing or by the decoders does). -/
inductive WF : JVal → Prop where
  | null : WF .null
  | bool (b : Bool) : WF (.bool b)
  | num (q : ℚ) : WF (.num q)
  | str (s : String) : WF (.str s)
  | typedArr (xs : List ℚ) : WF (.typedArr xs)
  | arr (xs : List JVal) : (∀ x ∈ xs, WF x) → WF (.arr xs)
  | obj (es : List (String × JVal)) : (es.map Prod.fst).Nodup →
      (∀ p ∈ es, WF p.2) → WF (.obj es)

/-! ### Decoded instances as runtime objects

A decoded class instance is an object whose own enumerable properties are
its constructor-assigned fields, in assignment order; a `Grid.data` typed
array is the `typedArr` value of its elements. -/

/-- Elements of a typed array as JS numbers. -/
def TypedArray.toListQ (t : TypedArray) : List ℚ := t.toList.map fun (i : Int) => (i : ℚ)

/-- The runtime object shape of a decoded `Grid` instance. -/
def Grid.toJVal (g : Grid) : JVal :=
  .obj [("data", .typedArr g.data.toListQ),
        ("shape", .arr (g.shape.map fun (n : Nat) => .num (n : ℚ)))]

/-- The runtime object shape of a decoded `Vector` instance. -/
def Vector.toJVal (v : Vector) : JVal :=
  .obj [("coords", .arr (v.coords.map .num))]

/-- The runtime object shape of a decoded `Path` instance. -/
def Path.toJVal (p : Path) : JVal :=
  .obj [("coords", .arr (p.coords.map fun q => .arr [.num q.1, .num q.2]))]

/-- The runtime object shape of a decoded `Costmap` instance. -/
def Costmap.toJVal (c : Costmap) : JVal :=
  .obj [("grid", c.grid.toJVal), ("origin", c.origin.toJVal),
        ("resolution", .num c.resolution), ("origin_theta", .num c.origin_theta)]

/-- The runtime object shape of any decoded drawable. -/
def Drawable.toJVal : Drawable → JVal
  | .costmap c => c.toJVal
  | .vector v => v.toJVal
  | .grid g => g.toJVal
  | .path p => p.toJVal

/-! ### Reading wire records out of JSON values (the dynamic field accesses
performed by the decoders when fed a parsed JSON object) -/

/-- Read a number. -/
def asRat : JVal → Option ℚ
  | .num q => some q
  | _ => none

/-- Read a numeric array. -/
def asRatList : JVal → Option (List ℚ)
  | .arr xs => xs.mapM asRat
  | _ => none

/-- Read a dimension (a non-negative integral number). -/
def asNat : JVal → Option Nat
  | .num q => if q.den = 1 ∧ 0 ≤ q.num then some q.num.toNat else none
  | _ => none

/-- Read a shape array. -/
def asNatList : JVal → Option (List Nat)
  | .arr xs => xs.mapM asNat
  | _ => none

/-- Read a coordinate pair `[x, y]`. -/
def asPair : JVal → Option (ℚ × ℚ)
  | .arr [.num a, .num b] => some (a, b)
  | _ => none

/-- Read a point array. -/
def asPairList : JVal → Option (List (ℚ × ℚ))
  | .arr xs => xs.mapM asPair
  | _ => none

/-- Read a string. -/
def asStr : JVal → Option String
  | .str s => some s
  | _ => none

/-- Read a boolean. -/
def asBool : JVal → Option Bool
  | .bool b => some b
  | _ => none

/-- View a JSON value as an `EncodedGrid` (the fields `Grid.decode` reads). -/
def wireToEncodedGrid (v : JVal) : Option EncodedGrid :=
  match (getKey v "shape").bind asNatList, (getKey v "dtype").bind asStr,
      (getKey v "data").bind asStr with
  | some sh, some dt, some da =>
    some ⟨sh, dt, ((getKey v "compressed").bind asBool).getD false, da⟩
  | _, _, _ => none

/-- View a JSON value as an `EncodedVector`. -/
def wireToEncodedVector (v : JVal) : Option EncodedVector :=
  ((getKey v "c").bind asRatList).map EncodedVector.mk

/-- View a JSON value as an `EncodedPath`. -/
def wireToEncodedPath (v : JVal) : Option EncodedPath :=
  ((getKey v "points").bind asPairList).map EncodedPath.mk

/-- View a JSON value as an `EncodedCostmap`. -/
def wireToEncodedCostmap (v : JVal) : Option EncodedCostmap :=
  match (getKey v "grid").bind wireToEncodedGrid,
      (getKey v "origin").bind wireToEncodedVector,
      (getKey v "resolution").bind asRat, (getKey v "origin_theta").bind asRat with
  | some g, some o, some r, some th => some ⟨g, o, r, th⟩
  | _, _, _, _ => none

/-- View a JSON value as the dynamic record `decode` dispatches on. -/
def wireToEncoded (v : JVal) : EncodedSomething :=
  { etype := (getKey v "type").bind asStr
    costmapPayload := wireToEncodedCostmap v
    vectorPayload := wireToEncodedVector v
    gridPayload := wireToEncodedGrid v
    pathPayload := wireToEncodedPath v }

/-- Decode one entry of the incoming `draw` object: a decoded drawable
instance, the `"UNKNOWN"` sentinel string, or `none` for a thrown decode
error (which aborts the whole update handler). -/
def decodeDrawableEntry (v : JVal) : Option JVal :=
  match decode (wireToEncoded v) with
  | .ok d => some d.toJVal
  | .unknown => some (.str "UNKNOWN")
  | .err => none

/-- Model of `decodeDrawables`: decode every entry of the incoming `draw`
object, keeping keys and their order.  (On a non-object, `Object.entries`
yields index/character entries; the program's updates always carry `draw`
as an object, and this corner is modelled as an empty result.) -/
def decodeDrawables (d : JVal) : Option JVal :=
  match d with
  | .obj es => (es.mapM fun p => (decodeDrawableEntry p.2).map fun w => (p.1, w)).map .obj
  | _ => some (.obj [])

/-- JS truthiness of a runtime value. -/
def truthy : JVal → Bool
  | .null => false
  | .bool b => b
  | .num q => !(q == 0)
  | .str s => !(s == "")
  | _ => true

/-- The `if (state.draw) state.draw = decodeDrawables(state.draw)` step. -/
def decodeDrawField (state : JVal) : Option JVal :=
  match getKey state "draw" with
  | some d =>
    if truthy d then (decodeDrawables d).map fun dd => setKey state "draw" dd
    else some state
  | none => some state

/-- Value of the shallow spread `{ ...v }` (a fresh container holding the
same top-level entries; reference freshness is modelled separately by
`state_update_ref`). -/
def spreadCopy : JVal → JVal
  | .obj es => .obj es
  | v => v

/-- Value semantics of the `state_update` handler: decode the `draw` field
when present and truthy, then
`serverState = { ...deepMerge(state, { ...serverState }) }`.
`none` models a decode exception aborting the handler before the merge. -/
def state_update (serverState : JVal) (state : JVal) : Option JVal :=
  (decodeDrawField state).map fun st => spreadCopy (deepMerge st (spreadCopy serverState))

/-- The stored server state together with the identity (allocation number)
of its top-level container. -/
structure StateRef where
  addr : Nat
  val : JVal

/-- Reference-level `state_update`: the outer `{ ... }` spread always
allocates a fresh top-level object, modelled by bumping the allocation
number, so the stored top-level reference differs from the previous one. -/
def state_update_ref (p : StateRef) (u : JVal) : Option StateRef :=
  (state_update p.val u).map fun v => { addr := p.addr + 1, val := v }

/-- Object-shaped test (a plain `typeof`-object that is not a typed array). -/
def isObj : JVal → Bool
  | .obj _ => true
  | _ => false

/-- The object produced by deep-merging one decoded `Grid` instance into
another: element-wise index merge of the typed `data` arrays (destination
length preserved), `shape` array replaced outright. -/
def mergedGridJ (g2 g1 : Grid) : JVal :=
  .obj [("data", .typedArr (overlayList g2.data.toListQ g1.data.toListQ)),
        ("shape", .arr (g2.shape.map fun (n : Nat) => .num (n : ℚ)))]

/-- The object produced by deep-merging one decoded `Costmap` instance into
another: recursive merge of the `grid` instances, recursive merge of the
`origin` instances (whose `coords` array is replaced outright), scalars
replaced. -/
def mergedCostmapJ (c2 c1 : Costmap) : JVal :=
  .obj [("grid", mergedGridJ c2.grid c1.grid),
        ("origin", .obj [("coords", .arr (c2.origin.coords.map .num))]),
        ("resolution", .num c2.resolution),
        ("origin_theta", .num c2.origin_theta)]

/-! ## Stream resilience automaton (the StreamViewer component)

Per-stream-key records `errorMessages`, `retryCount`, `retryTimers`,
`timestamps` are modelled as total functions with the records' default
reads (`undefined` count behaves as 0 through the `!retryCount[key]`
normalization; an absent timer handle behaves as no pending timer).
`retryTimers k = some d` means a timeout scheduled `d` ms ahead is pending
for `k`; firing a timeout consumes it (the spent handle that JS leaves in
the record has no pending timer behind it, and `clearTimeout` on it is a
no-op), after which the timeout callback `retryConnection` runs. -/

/-- Total connection budget in milliseconds (`TOTAL_TIMEOUT = 120000`). -/
def TOTAL_TIMEOUT : Nat := 120000

/-- Delay between retry attempts in milliseconds (`RETRY_INTERVAL = 2000`). -/
def RETRY_INTERVAL : Nat := 2000

/-- Retry budget: `Math.floor(TOTAL_TIMEOUT / RETRY_INTERVAL)` (Nat division
is the floor). -/
def MAX_RETRIES : Nat := TOTAL_TIMEOUT / RETRY_INTERVAL

/-- Pointwise update of a per-key record. -/
def setFn {α : Type} (f : String → α) (k : String) (v : α) : String → α :=
  fun k' => if k' = k then v else f k'

/-- The per-key state of the stream viewer. -/
structure StreamRetryState where
  errorMessages : String → Option String
  retryCount : String → Nat
  retryTimers : String → Option Nat
  timestamps : String → Option Nat

/-- All records start empty. -/
def initialRetryState : StreamRetryState :=
  { errorMessages := fun _ => none, retryCount := fun _ => 0,
    retryTimers := fun _ => none, timestamps := fun _ => none }

/-- The message published while retrying:
`Connection attempt ${n}/${MAX_RETRIES}... (${Math.ceil(timeLeft / 1000)}s remaining)`. -/
def attemptMsg (n timeLeft : Nat) : String :=
  "Connection attempt " ++ toString n ++ "/" ++ toString MAX_RETRIES ++ "... (" ++
    toString ((timeLeft + 999) / 1000) ++ "s remaining)"

/-- The terminal failure message published once the retry budget is spent. -/
def failedMsg : String :=
  "Failed to connect to stream. Please check if the Robot() is running and sending data to RobotWebInterface."

/-- Cancel the pending timer of one key (`clearRetryTimer`). -/
def clearRetryTimer (streamKey : String) (s : StreamRetryState) : StreamRetryState :=
  { s with retryTimers := setFn s.retryTimers streamKey none }

/-- Model of `retryConnection(streamKey)` at wall-clock time `now`: while the
retry count is below `MAX_RETRIES`, increment it, publish the attempt
message with the remaining budget, stamp a fresh cache-busting timestamp,
and schedule the next tick after `RETRY_INTERVAL`; otherwise publish the
terminal failure message and schedule nothing. -/
def retryConnection (streamKey : String) (now : Nat) (s : StreamRetryState) :
    StreamRetryState :=
  let cnt := s.retryCount streamKey
  if cnt < MAX_RETRIES then
    let timeLeft := TOTAL_TIMEOUT - (cnt + 1) * RETRY_INTERVAL
    { errorMessages := setFn s.errorMessages streamKey (some (attemptMsg (cnt + 1) timeLeft))
      retryCount := setFn s.retryCount streamKey (cnt + 1)
      retryTimers := setFn s.retryTimers streamKey (some RETRY_INTERVAL)
      timestamps := setFn s.timestamps streamKey (some now) }
  else
    { s with errorMessages := setFn s.errorMessages streamKey (some failedMsg) }

/-- Model of `handleError(streamKey)`: only the first load failure of a key
(retry count still 0) starts the retry loop; later failures are ignored
because the scheduled timer drives further attempts. -/
def handleError (streamKey : String) (now : Nat) (s : StreamRetryState) :
    StreamRetryState :=
  if s.retryCount streamKey = 0 then retryConnection streamKey now s else s

/-- Model of `handleLoad(streamKey)`: a successful load clears the error
message, the retry count, and any pending timer. -/
def handleLoad (streamKey : String) (s : StreamRetryState) : StreamRetryState :=
  { s with errorMessages := setFn s.errorMessages streamKey none
           retryCount := setFn s.retryCount streamKey 0
           retryTimers := setFn s.retryTimers streamKey none }

/-- Model of `stopStream()`: cancel the pending timer of every key
(`Object.keys(retryTimers).forEach(clearRetryTimer)`); the
`streamStore.set(initialState)` half resets the separate stream store, not
these records. -/
def stopStream (s : StreamRetryState) : StreamRetryState :=
  { s with retryTimers := fun _ => none }

/-- Firing of a pending timeout for a key: the pending timer (if any) is
consumed and its callback `retryConnection` runs; with no pending timer
nothing can fire and the state is unchanged. -/
def tick (streamKey : String) (now : Nat) (s : StreamRetryState) : StreamRetryState :=
  match s.retryTimers streamKey with
  | some _ => retryConnection streamKey now
      { s with retryTimers := setFn s.retryTimers streamKey none }
  | none => s

/-- Apply `n` timer firings for `"cam0"`. -/
def tickN : Nat → StreamRetryState → StreamRetryState
  | 0, s => s
  | n + 1, s => tickN n (tick "cam0" 0 s)

/-- A run of consecutive failures for `"cam0"` with no intervening
successful load: the initial failure, then `n` timer firings (every
relaunched attempt fails again, which `handleError` ignores since the count
is nonzero, so the timers are the sole drivers). -/
def failRun (n : Nat) : StreamRetryState :=
  tickN n (handleError "cam0" 0 initialRetryState)

/-- Apply a list of timer-firing events (key, time) in order. -/
def applyTicks : List (String × Nat) → StreamRetryState → StreamRetryState
  | [], s => s
  | (k, t) :: rest, s => applyTicks rest (tick k t s)

/-! ## Lemmas about the grid codec -/

theorem toF32List_length (bs : List Nat) : (toF32List bs).length = bs.length / 4 := by
  induction bs using toF32List.induct with
  | case1 b0 b1 b2 b3 rest ih => simp only [toF32List, List.length_cons]; omega
  | case2 bs h => cases bs with
    | nil => simp [toF32List]
    | cons a t => cases t with
      | nil => simp [toF32List]
      | cons b t2 => cases t2 with
        | nil => simp [toF32List]
        | cons c t3 => cases t3 with
          | nil => simp [toF32List]
          | cons d t4 => exact absurd rfl (h a b c d t4)

theorem toI32List_length (bs : List Nat) : (toI32List bs).length = bs.length / 4 := by
  induction bs using toI32List.induct with
  | case1 b0 b1 b2 b3 rest ih => simp only [toI32List, List.length_cons]; omega
  | case2 bs h => cases bs with
    | nil => simp [toI32List]
    | cons a t => cases t with
      | nil => simp [toI32List]
      | cons b t2 => cases t2 with
        | nil => simp [toI32List]
        | cons c t3 => cases t3 with
          | nil => simp [toI32List]
          | cons d t4 => exact absurd rfl (h a b c d t4)

theorem toF64List_length (bs : List Nat) : (toF64List bs).length = bs.length / 8 := by
  induction bs using toF64List.induct with
  | case1 b0 b1 b2 b3 b4 b5 b6 b7 rest ih =>
    simp only [toF64List, List.length_cons]; omega
  | case2 bs h =>
    rcases bs with _ | ⟨a, _ | ⟨b, _ | ⟨c, _ | ⟨d, _ | ⟨e, _ | ⟨f, _ | ⟨g, _ | ⟨i, t⟩⟩⟩⟩⟩⟩⟩⟩
    · simp [toF64List]
    · simp [toF64List]
    · simp [toF64List]
    · simp [toF64List]
    · simp [toF64List]
    · simp [toF64List]
    · simp [toF64List]
    · simp [toF64List]
    · exact absurd rfl (h a b c d e f g i t)

/-- Positive element sizes. -/
theorem bytesPerElement_pos (dtype : String) : 0 < bytesPerElement dtype := by
  unfold bytesPerElement
  repeat' split
  all_goals norm_num

/-- When the buffer length is a multiple of the element size, `reinterpret`
succeeds and the element count is the byte count divided by the size. -/
theorem reinterpret_length (dtype : String) (bytes : List Nat)
    (h : bytes.length % bytesPerElement dtype = 0) :
    ∃ t, reinterpret dtype bytes = some t ∧
      TypedArray.length t = bytes.length / bytesPerElement dtype := by
  by_cases h1 : dtype = "f32"
  · have h4 : bytes.length % 4 = 0 := by simpa [bytesPerElement, h1] using h
    exact ⟨.f32 (toF32List bytes), by simp [reinterpret, h1, h4],
      by simp [bytesPerElement, h1, TypedArray.length, TypedArray.toList, toF32List_length]⟩
  by_cases h2 : dtype = "f64"
  · have h8 : bytes.length % 8 = 0 := by simpa [bytesPerElement, h1, h2] using h
    exact ⟨.f64 (toF64List bytes), by simp [reinterpret, h1, h2, h8],
      by simp [bytesPerElement, h1, h2, TypedArray.length, TypedArray.toList, toF64List_length]⟩
  by_cases h3 : dtype = "i32"
  · have h4 : bytes.length % 4 = 0 := by simpa [bytesPerElement, h1, h2, h3] using h
    exact ⟨.i32 (toI32List bytes), by simp [reinterpret, h1, h2, h3, h4],
      by simp [bytesPerElement, h1, h2, h3, TypedArray.length, TypedArray.toList, toI32List_length]⟩
  by_cases h5 : dtype = "i8"
  · exact ⟨.i8 (bytes.map i8val), by simp [reinterpret, h1, h2, h3, h5],
      by simp [bytesPerElement, h1, h2, h3, h5, TypedArray.length, TypedArray.toList]⟩
  · exact ⟨.u8 (bytes.map fun (b : Nat) => (b : Int)), by simp [reinterpret, h1, h2, h3, h5],
      by simp only [bytesPerElement, if_neg h1, if_neg h2, if_neg h3, if_neg h5,
        TypedArray.length, TypedArray.toList, List.length_map, Nat.div_one]⟩

/-- C3: for every valid encoded Grid record with declared shape
`[rows, cols]` (valid: the base64 payload decodes and its byte count matches
the declared element count times the element size), the decode succeeds, the
decoded shape equals the declared shape, and the decoded numeric array holds
exactly `rows * cols` elements. -/
theorem claim_C3 (msg : EncodedGrid) (rows cols : Nat) (bytes : List Nat)
    (hb : base64Decode msg.data = some bytes)
    (hlen : bytes.length = rows * cols * bytesPerElement msg.dtype)
    (hshape : msg.shape = [rows, cols]) :
    ∃ g : Grid, Grid.decode msg = some g ∧ g.shape = [rows, cols] ∧
      TypedArray.length g.data = rows * cols := by
  have hmod : bytes.length % bytesPerElement msg.dtype = 0 := by
    rw [hlen]; exact Nat.mul_mod_left _ _
  obtain ⟨t, ht, hlen'⟩ := reinterpret_length msg.dtype bytes hmod
  refine ⟨⟨t, msg.shape⟩, ?_, by simpa using hshape, ?_⟩
  · simp [Grid.decode, hb, ht]
  · simpa using
      hlen'.trans (by rw [hlen, Nat.mul_div_cancel _ (bytesPerElement_pos msg.dtype)])

/-- Witness for C3 at a concrete record: dtype `i8`, payload `AA E=`
decoding to the two bytes `[0, 1]`, shape `[1, 2]`. -/
theorem claim_C3_witness :
    ∃ g : Grid, Grid.decode ⟨[1, 2], "i8", false, "AAE="⟩ = some g ∧
      g.shape = [1, 2] ∧ TypedArray.length g.data = 1 * 2 :=
  claim_C3 ⟨[1, 2], "i8", false, "AAE="⟩ 1 2 [0, 1] (by decide) (by decide) rfl

/-- C5: a record whose `type` discriminant is none of `"costmap"`,
`"vector"`, `"grid"`, `"path"` — including a missing discriminant — decodes
to the `"UNKNOWN"` sentinel (in particular, never to a thrown error). -/
theorem claim_C5 (e : EncodedSomething)
    (h1 : e.etype ≠ some "costmap") (h2 : e.etype ≠ some "vector")
    (h3 : e.etype ≠ some "grid") (h4 : e.etype ≠ some "path") :
    decode e = .unknown := by
  unfold decode
  simp [h1, h2, h3, h4]

/-- Witness for C5: `decode({type:"bogus"})` and a record with no
discriminant both yield the sentinel. -/
theorem claim_C5_witness :
    decode ⟨some "bogus", none, none, none, none⟩ = .unknown ∧
    decode ⟨none, none, none, none, none⟩ = .unknown :=
  ⟨claim_C5 _ (by decide) (by decide) (by decide) (by decide),
   claim_C5 _ (by decide) (by decide) (by decide) (by decide)⟩

/-- C6: an encoded Grid whose dtype is unrecognized (for instance
`"weird"`) still decodes, reinterpreting the raw bytes as unsigned 8-bit
values, while each recognized dtype decodes with its own typed
interpretation. -/
theorem claim_C6 (msg : EncodedGrid) (bytes : List Nat)
    (hb : base64Decode msg.data = some bytes) :
    (msg.dtype ∉ (["f32", "f64", "i32", "i8"] : List String) →
      Grid.decode msg = some ⟨.u8 (bytes.map fun (b : Nat) => (b : Int)), msg.shape⟩) ∧
    (msg.dtype = "i8" →
      Grid.decode msg = some ⟨.i8 (bytes.map i8val), msg.shape⟩) ∧
    (msg.dtype = "i32" → bytes.length % 4 = 0 →
      Grid.decode msg = some ⟨.i32 (toI32List bytes), msg.shape⟩) ∧
    (msg.dtype = "f32" → bytes.length % 4 = 0 →
      Grid.decode msg = some ⟨.f32 (toF32List bytes), msg.shape⟩) ∧
    (msg.dtype = "f64" → bytes.length % 8 = 0 →
      Grid.decode msg = some ⟨.f64 (toF64List bytes), msg.shape⟩) := by
  refine ⟨?_, ?_, ?_, ?_, ?_⟩
  · intro hu
    simp only [List.mem_cons, List.not_mem_nil, or_false, not_or] at hu
    obtain ⟨n1, n2, n3, n4⟩ := hu
    unfold Grid.decode
    rw [hb]
    simp [reinterpret, n1, n2, n3, n4]
  · intro hdt
    unfold Grid.decode
    rw [hb]
    simp [reinterpret, hdt]
  · intro hdt hm
    unfold Grid.decode
    rw [hb]
    simp [reinterpret, hdt, hm]
  · intro hdt hm
    unfold Grid.decode
    rw [hb]
    simp [reinterpret, hdt, hm]
  · intro hdt hm
    unfold Grid.decode
    rw [hb]
    simp [reinterpret, hdt, hm]

/-- Witness for C6: dtype `"weird"` with payload `"AAAA"` decodes to the
three raw bytes `[0, 0, 0]` as unsigned 8-bit values. -/
theorem claim_C6_witness :
    Grid.decode ⟨[3], "weird", false, "AAAA"⟩ =
      some ⟨.u8 ([0, 0, 0].map fun (b : Nat) => (b : Int)), [3]⟩ :=
  (claim_C6 ⟨[3], "weird", false, "AAAA"⟩ [0, 0, 0] (by decide)).1 (by decide)

/-! ## Lemmas about the coordinate transform -/

/-- A two-point linear scale with nondegenerate domain and range is undone
by the swapped scale (`scale.invert`). -/
theorem linScale_left_inv (d0 d1 r0 r1 x : ℚ) (h1 : d1 - d0 ≠ 0) (h2 : r1 - r0 ≠ 0) :
    linScale r0 r1 d0 d1 (linScale d0 d1 r0 r1 x) = x := by
  unfold linScale
  field_simp
  ring

/-- C4: for every costmap with positive dimensions and resolution and every
positive viewport, `pxToWorld` is the exact algebraic inverse of
`worldToPx` (the degenerate zero-size cases are excluded: there the scales
divide by zero). -/
theorem claim_C4 (c : Costmap) (width height : ℚ)
    (hr : 0 < costmapRows c) (hc : 0 < costmapCols c)
    (hres : 0 < c.resolution) (hw : 0 < width) (hh : 0 < height) :
    ∀ p : ℚ × ℚ, pxToWorld c width height (worldToPx c width height p) = p := by
  intro p
  obtain ⟨x, y⟩ := p
  have hrows : (0 : ℚ) < (costmapRows c : ℚ) := by exact_mod_cast hr
  have hcols : (0 : ℚ) < (costmapCols c : ℚ) := by exact_mod_cast hc
  have hcell : 0 < min (width / (costmapCols c : ℚ)) (height / (costmapRows c : ℚ)) :=
    lt_min (div_pos hw hcols) (div_pos hh hrows)
  have hxd : (transformOf c width height).xd1 - (transformOf c width height).xd0 ≠ 0 := by
    simp only [transformOf]
    have := mul_pos hcols hres
    intro hcon
    rw [add_sub_cancel_left] at hcon
    exact this.ne' hcon
  have hxr : (transformOf c width height).xr1 - (transformOf c width height).xr0 ≠ 0 := by
    simp only [transformOf]
    have := mul_pos hcols hcell
    intro hcon
    rw [add_sub_cancel_left] at hcon
    exact this.ne' hcon
  have hyd : (transformOf c width height).yd1 - (transformOf c width height).yd0 ≠ 0 := by
    simp only [transformOf]
    have := mul_pos hrows hres
    intro hcon
    rw [add_sub_cancel_left] at hcon
    exact this.ne' hcon
  have hyr : (transformOf c width height).yr1 - (transformOf c width height).yr0 ≠ 0 := by
    simp only [transformOf]
    have := mul_pos hrows hcell
    intro hcon
    rw [sub_add_cancel_left, neg_eq_zero] at hcon
    exact this.ne' hcon
  simp only [pxToWorld, worldToPx, Prod.mk.injEq]
  exact ⟨linScale_left_inv _ _ _ _ x hxd hxr, linScale_left_inv _ _ _ _ y hyd hyr⟩

/-- Witness for C4: the spec's concrete scenario — origin (0,0), resolution
1, shape 10 by 10, viewport 500 by 500 — round-trips the point (3, 4). -/
theorem claim_C4_witness :
    pxToWorld ⟨⟨.u8 [], [10, 10]⟩, ⟨[0, 0]⟩, 1, 0⟩ 500 500
      (worldToPx ⟨⟨.u8 [], [10, 10]⟩, ⟨[0, 0]⟩, 1, 0⟩ 500 500 (3, 4)) = (3, 4) :=
  claim_C4 ⟨⟨.u8 [], [10, 10]⟩, ⟨[0, 0]⟩, 1, 0⟩ 500 500 (by decide) (by decide)
    (by norm_num) (by norm_num) (by norm_num) (3, 4)

/-! ## Lemmas about the retry automaton -/

/-- A tick with no pending timer for the key cannot fire and changes nothing. -/
theorem tick_of_none (k : String) (now : Nat) (s : StreamRetryState)
    (h : s.retryTimers k = none) : tick k now s = s := by
  unfold tick
  rw [h]

/-- Peeling one tick off the end of a run. -/
theorem tickN_succ_right (n : Nat) (s : StreamRetryState) :
    tickN (n + 1) s = tick "cam0" 0 (tickN n s) := by
  induction n generalizing s with
  | zero => rfl
  | succ m ih => exact ih (tick "cam0" 0 s)

set_option maxRecDepth 8000 in
/-- C1: the retry automaton's bounded-retry behaviour.  The numeric policy
is `TOTAL_TIMEOUT = 120000`, `RETRY_INTERVAL = 2000`,
`MAX_RETRIES = floor(TOTAL_TIMEOUT / RETRY_INTERVAL) = 60`.  While the
retry count is below `MAX_RETRIES`, each invocation publishes the
"attempt N/MAX (Ts remaining)" message and schedules the next tick
`RETRY_INTERVAL` ms ahead; once the count has reached `MAX_RETRIES` it
publishes the terminal failure message and leaves the timer records
untouched (never schedules).  Consequently, in the run of consecutive
failures for `"cam0"` (one failed attempt per `retryConnection`
invocation), once the 60 failed attempts have been processed — the initial
failure plus the 60 ticks that drive and absorb them — the automaton shows
the terminal message with no pending timer and every later state is
identical (no timer ever fires or is scheduled again), while after 59
failed attempts it is still retrying: a timer is pending and the published
message is "attempt 59/60 (2s remaining)", a nonzero remaining time. -/
theorem claim_C1 :
    (TOTAL_TIMEOUT = 120000 ∧ RETRY_INTERVAL = 2000 ∧
      MAX_RETRIES = TOTAL_TIMEOUT / RETRY_INTERVAL ∧ MAX_RETRIES = 60) ∧
    (∀ (s : StreamRetryState) (key : String) (now : Nat),
      s.retryCount key < MAX_RETRIES →
        (retryConnection key now s).errorMessages key =
          some (attemptMsg (s.retryCount key + 1)
            (TOTAL_TIMEOUT - (s.retryCount key + 1) * RETRY_INTERVAL)) ∧
        (retryConnection key now s).retryTimers key = some RETRY_INTERVAL ∧
        (retryConnection key now s).retryCount key = s.retryCount key + 1) ∧
    (∀ (s : StreamRetryState) (key : String) (now : Nat),
      MAX_RETRIES ≤ s.retryCount key →
        (retryConnection key now s).errorMessages key = some failedMsg ∧
        (retryConnection key now s).retryTimers = s.retryTimers) ∧
    ((failRun 60).errorMessages "cam0" = some failedMsg ∧
      (failRun 60).retryTimers "cam0" = none ∧
      ∀ m, failRun (60 + m) = failRun 60) ∧
    ((failRun 58).errorMessages "cam0" = some (attemptMsg 59 2000) ∧
      (failRun 58).retryTimers "cam0" = some RETRY_INTERVAL ∧
      attemptMsg 59 2000 = "Connection attempt 59/60... (2s remaining)") := by
  have h2 : (failRun 60).retryTimers "cam0" = none := by decide
  refine ⟨by decide, ?_, ?_, ⟨by decide, h2, ?_⟩, ?_⟩
  · intro s key now h
    simp [retryConnection, if_pos h, setFn]
  · intro s key now h
    refine ⟨?_, ?_⟩
    · simp [retryConnection, if_neg (not_lt.mpr h), setFn]
    · simp [retryConnection, if_neg (not_lt.mpr h)]
  · intro m
    induction m with
    | zero => rfl
    | succ k ih =>
      have hstep : 60 + (k + 1) = (60 + k) + 1 := rfl
      rw [hstep]
      show tickN ((60 + k) + 1) (handleError "cam0" 0 initialRetryState) = failRun 60
      rw [tickN_succ_right]
      show tick "cam0" 0 (failRun (60 + k)) = failRun 60
      rw [ih]
      exact tick_of_none _ _ _ h2
  · refine ⟨by decide, by decide, by decide⟩

set_option maxRecDepth 8000 in
/-- Witness for C1: the branch facts applied at concrete states — the very
first failure for a fresh key publishes "attempt 1/60 (118s remaining)" and
schedules a 2000 ms tick, and one more invocation on the exhausted run
state publishes the terminal message. -/
theorem claim_C1_witness :
    (retryConnection "cam0" 5 initialRetryState).errorMessages "cam0" =
      some (attemptMsg 1 118000) ∧
    (retryConnection "cam0" 5 initialRetryState).retryTimers "cam0" = some RETRY_INTERVAL ∧
    (retryConnection "cam0" 99 (failRun 60)).errorMessages "cam0" = some failedMsg := by
  have h1 := claim_C1.2.1 initialRetryState "cam0" 5 (by decide)
  have h2 := claim_C1.2.2.1 (failRun 60) "cam0" 99 (by decide)
  exact ⟨h1.1, h1.2.1, h2.1⟩

/-- C7 counterexample: stopping the stream does not discard per-key retry
state.  After the first failure for `"cam0"` the retry count is 1 and an
attempt message is published; `stopStream` cancels the timer but leaves the
count at 1 (not the Idle value 0) and keeps the error message. -/
theorem claim_C7_counterexample :
    (stopStream (handleError "cam0" 0 initialRetryState)).retryCount "cam0" = 1 ∧
    (stopStream (handleError "cam0" 0 initialRetryState)).errorMessages "cam0" ≠ none ∧
    (1 : Nat) ≠ 0 := by
  refine ⟨by decide, by decide, by decide⟩

/-- C7 amended: `stopStream` immediately cancels every pending retry timer
across all keys, and afterwards no retry timer ever fires (any sequence of
timer-firing events leaves the stopped state unchanged, however long after
`RETRY_INTERVAL`); but the per-key `retryCount`, `errorMessages` and
`timestamps` records are retained, not reset — they are only cleared by a
successful load or by the reactive reset when a stream URL is next set. -/
theorem claim_C7_amended (s : StreamRetryState) :
    (∀ k, (stopStream s).retryTimers k = none) ∧
    (∀ events, applyTicks events (stopStream s) = stopStream s) ∧
    (stopStream s).retryCount = s.retryCount ∧
    (stopStream s).errorMessages = s.errorMessages ∧
    (stopStream s).timestamps = s.timestamps := by
  refine ⟨fun k => rfl, ?_, rfl, rfl, rfl⟩
  intro events
  induction events with
  | nil => rfl
  | cons e rest ih => exact ih

/-! ## The coordinate-mapping fallbacks (C9) -/

/-- C9 counterexample: with no Costmap in the state, the click
inverse-mapping caller does not fall back to the viewport-centre/unit-scale
transform — it drops the click (`if (!costmap) return`), returning no world
coordinate at all, whereas the claimed fallback at viewport 500 by 500 and
click point (300, 200) would produce the world point (50, 50). -/
theorem claim_C9_counterexample :
    handleGlobalClickWorld [("p1", Drawable.path ⟨[(0, 0), (1, 1)]⟩)] 500 500
        (300, 200) = none ∧
    handleGlobalClickWorld [("p1", Drawable.path ⟨[(0, 0), (1, 1)]⟩)] 500 500
        (300, 200) ≠ some (300 - 500 / 2, 500 / 2 - 200) := by
  refine ⟨rfl, ?_⟩
  intro h
  have hcon : (none : Option (ℚ × ℚ)) = some (300 - 500 / 2, 500 / 2 - 200) := h
  exact Option.noConfusion hcon

/-- C9 amended: when the state holds no Costmap, the derived transform is
absent and the path- and vector-rendering callers fall back explicitly to
treating the viewport centre as the world origin with unit scale
(`[width/2 + x, height/2 - y]`), without crashing; the click
inverse-mapping caller instead returns without mapping the click — also
without crashing, but with no centre fallback. -/
theorem claim_C9_amended :
    (∀ (width height : ℚ) (p : ℚ × ℚ),
      pathPointPx none width height p = (width / 2 + p.1, height / 2 - p.2)) ∧
    (∀ (width height : ℚ) (v : List ℚ),
      visualiseVectorPx none width height v =
        (width / 2 + v.getD 0 0, height / 2 - v.getD 1 0)) ∧
    (∀ (st : List (String × Drawable)) (width height : ℚ) (pt : ℚ × ℚ),
      findCostmap st = none →
        stateWorldToPx st width height = none ∧
        handleGlobalClickWorld st width height pt = none) := by
  refine ⟨fun _ _ _ => rfl, fun _ _ _ => rfl, ?_⟩
  intro st w h pt hnone
  constructor
  · unfold stateWorldToPx
    rw [hnone]
    rfl
  · unfold handleGlobalClickWorld
    rw [hnone]

/-- Witness for C9 (amended): the empty state has no Costmap, so the
transform is absent and a click maps to nothing. -/
theorem claim_C9_amended_witness :
    stateWorldToPx [] 640 480 = none ∧ handleGlobalClickWorld [] 640 480 (10, 20) = none :=
  claim_C9_amended.2.2 [] 640 480 (10, 20) rfl

/-! ## Association-list lemmas for the merge engine -/

theorem lookupKey_eq_none (es : List (String × JVal)) (k : String)
    (h : k ∉ es.map Prod.fst) : lookupKey es k = none := by
  induction es with
  | nil => rfl
  | cons p rest ih =>
    obtain ⟨k', v⟩ := p
    simp only [List.map_cons, List.mem_cons, not_or] at h
    simp only [lookupKey, if_neg h.1]
    exact ih h.2

theorem lookupKey_of_mem_nodup (es : List (String × JVal)) (k : String) (v : JVal)
    (hnd : (es.map Prod.fst).Nodup) (hm : (k, v) ∈ es) : lookupKey es k = some v := by
  induction es with
  | nil => cases hm
  | cons p rest ih =>
    obtain ⟨k', v'⟩ := p
    simp only [List.map_cons, List.nodup_cons] at hnd
    rcases List.mem_cons.mp hm with heq | hmem
    · obtain ⟨rfl, rfl⟩ := Prod.mk.injEq k v k' v' ▸ heq
      simp [lookupKey]
    · have hk : k ≠ k' := by
        rintro rfl
        exact hnd.1 (List.mem_map_of_mem Prod.fst hmem)
      simp only [lookupKey, if_neg hk]
      exact ih hnd.2 hmem

theorem lookupKey_setEntries_self (es : List (String × JVal)) (k : String) (v : JVal) :
    lookupKey (setEntries es k v) k = some v := by
  induction es with
  | nil => simp [setEntries, lookupKey]
  | cons p rest ih =>
    obtain ⟨k', v'⟩ := p
    by_cases h : k = k'
    · subst h
      simp [setEntries, lookupKey]
    · simp only [setEntries, if_neg h, lookupKey, if_neg h]
      exact ih

theorem lookupKey_setEntries_other (es : List (String × JVal)) (kset kq : String)
    (v : JVal) (h : kq ≠ kset) :
    lookupKey (setEntries es kset v) kq = lookupKey es kq := by
  induction es with
  | nil => simp [setEntries, lookupKey, if_neg h]
  | cons p rest ih =>
    obtain ⟨k'', v''⟩ := p
    by_cases h2 : kset = k''
    · subst h2
      simp only [setEntries, if_pos rfl, lookupKey, if_neg h]
    · simp only [setEntries, if_neg h2, lookupKey]
      by_cases h3 : kq = k''
      · simp [if_pos h3]
      · simp only [if_neg h3]
        exact ih

theorem setEntries_self_of_lookup (es : List (String × JVal)) (k : String) (v : JVal)
    (h : lookupKey es k = some v) : setEntries es k v = es := by
  induction es with
  | nil => simp [lookupKey] at h
  | cons p rest ih =>
    obtain ⟨k', v'⟩ := p
    by_cases h2 : k = k'
    · subst h2
      simp [lookupKey] at h
      subst h
      simp [setEntries]
    · simp only [lookupKey, if_neg h2] at h
      simp [setEntries, if_neg h2, ih h]

theorem mem_map_fst_setEntries (es : List (String × JVal)) (k a : String) (v : JVal)
    (h : a ∈ (setEntries es k v).map Prod.fst) : a ∈ es.map Prod.fst ∨ a = k := by
  induction es with
  | nil =>
    simp only [setEntries, List.map_cons, List.map_nil, List.mem_cons,
      List.not_mem_nil, or_false] at h
    exact Or.inr h
  | cons p rest ih =>
    obtain ⟨k', v'⟩ := p
    by_cases h2 : k = k'
    · subst h2
      simp only [setEntries, if_pos rfl, List.map_cons, List.mem_cons] at h
      left
      simpa using h
    · simp only [setEntries, if_neg h2, List.map_cons, List.mem_cons] at h
      rcases h with rfl | h
      · left; simp
      · rcases ih h with h3 | h3
        · left
          simp [h3]
        · right
          exact h3

theorem nodup_setEntries (es : List (String × JVal)) (k : String) (v : JVal)
    (h : (es.map Prod.fst).Nodup) : ((setEntries es k v).map Prod.fst).Nodup := by
  induction es with
  | nil => simp [setEntries]
  | cons p rest ih =>
    obtain ⟨k', v'⟩ := p
    simp only [List.map_cons, List.nodup_cons] at h
    by_cases h2 : k = k'
    · subst h2
      simpa [setEntries, List.nodup_cons] using h
    · simp only [setEntries, if_neg h2, List.map_cons, List.nodup_cons]
      refine ⟨?_, ih h.2⟩
      intro hmem
      rcases mem_map_fst_setEntries rest k k' v hmem with h3 | h3
      · exact h.1 h3
      · exact h2 h3.symm

theorem mem_setEntries_val (es : List (String × JVal)) (k : String) (v : JVal) :
    ∀ p ∈ setEntries es k v, p.2 = v ∨ p ∈ es := by
  induction es with
  | nil =>
    intro p hp
    simp only [setEntries, List.mem_cons, List.not_mem_nil, or_false] at hp
    left
    rw [hp]
  | cons q rest ih =>
    obtain ⟨k', v'⟩ := q
    intro p hp
    by_cases h2 : k = k'
    · subst h2
      simp only [setEntries, eq_self_iff_true, if_true, List.mem_cons] at hp
      refine hp.elim (fun heq => ?_) (fun hmem => ?_)
      · left
        rw [heq]
      · right
        exact List.mem_cons_of_mem _ hmem
    · simp only [setEntries, if_neg h2, List.mem_cons] at hp
      refine hp.elim (fun heq => ?_) (fun hmem => ?_)
      · right
        rw [heq]
        simp
      · refine (ih p hmem).elim (fun h3 => Or.inl h3) (fun h3 => ?_)
        right
        exact List.mem_cons_of_mem _ h3

/-! ## Structural lemmas about `deepMerge` -/

theorem getKey_nonobj (d : JVal) (k : String) (h : isObj d = false) :
    getKey d k = none := by
  cases d with
  | obj es => simp [isObj] at h
  | null => rfl
  | bool b => rfl
  | num q => rfl
  | str s => rfl
  | arr xs => rfl
  | typedArr xs => rfl

theorem setKey_nonobj (d : JVal) (k : String) (v : JVal) (h : isObj d = false) :
    setKey d k v = d := by
  cases d with
  | obj es => simp [isObj] at h
  | null => rfl
  | bool b => rfl
  | num q => rfl
  | str s => rfl
  | arr xs => rfl
  | typedArr xs => rfl

theorem mergeEntries_nonobj (ses : List (String × JVal)) :
    ∀ (d : JVal), isObj d = false → mergeEntries ses d = d := by
  induction ses with
  | nil => intro d _; rfl
  | cons p rest ih =>
    obtain ⟨k, sv⟩ := p
    intro d hd
    simp only [mergeEntries, getKey_nonobj d k hd, setKey_nonobj d k sv hd]
    exact ih d hd

theorem mergeEntries_obj (ses : List (String × JVal)) :
    ∀ des : List (String × JVal), ∃ des', mergeEntries ses (.obj des) = .obj des' := by
  induction ses with
  | nil => intro des; exact ⟨des, rfl⟩
  | cons p rest ih =>
    obtain ⟨k, sv⟩ := p
    intro des
    simp only [mergeEntries]
    rcases hg : getKey (.obj des) k with _ | dv
    · simp only [hg]
      exact ih (setEntries des k sv)
    · simp only [hg]
      by_cases hm : (isMergeable sv && isMergeable dv) = true
      · rw [if_pos hm]
        exact ih (setEntries des k (deepMerge sv dv))
      · rw [if_neg hm]
        exact ih (setEntries des k sv)

theorem getKey_mergeEntries_not_mem (ses : List (String × JVal)) :
    ∀ (des : List (String × JVal)) (k : String), lookupKey ses k = none →
      getKey (mergeEntries ses (.obj des)) k = lookupKey des k := by
  induction ses with
  | nil => intro des k _; rfl
  | cons p rest ih =>
    obtain ⟨k', sv⟩ := p
    intro des k h
    have hk : ¬ k = k' := by
      rintro rfl
      simp [lookupKey] at h
    have hrest : lookupKey rest k = none := by
      simpa [lookupKey, if_neg hk] using h
    simp only [mergeEntries]
    rcases hg : getKey (.obj des) k' with _ | dv
    · simp only [hg]
      rw [show setKey (.obj des) k' sv = JVal.obj (setEntries des k' sv) from rfl,
        ih (setEntries des k' sv) k hrest]
      exact lookupKey_setEntries_other des k' k sv hk
    · simp only [hg]
      by_cases hm : (isMergeable sv && isMergeable dv) = true
      · rw [if_pos hm,
          show setKey (.obj des) k' (deepMerge sv dv) =
            JVal.obj (setEntries des k' (deepMerge sv dv)) from rfl,
          ih (setEntries des k' (deepMerge sv dv)) k hrest]
        exact lookupKey_setEntries_other des k' k _ hk
      · rw [if_neg hm,
          show setKey (.obj des) k' sv = JVal.obj (setEntries des k' sv) from rfl,
          ih (setEntries des k' sv) k hrest]
        exact lookupKey_setEntries_other des k' k sv hk

theorem getKey_mergeEntries_mem (ses : List (String × JVal)) :
    ∀ (des : List (String × JVal)) (k : String) (sv : JVal),
      (ses.map Prod.fst).Nodup → lookupKey ses k = some sv →
      getKey (mergeEntries ses (.obj des)) k =
        some (match lookupKey des k with
              | some dv => if isMergeable sv && isMergeable dv then deepMerge sv dv else sv
              | none => sv) := by
  induction ses with
  | nil =>
    intro des k sv _ h
    simp [lookupKey] at h
  | cons p rest ih =>
    obtain ⟨k', sv'⟩ := p
    intro des k sv hnd h
    simp only [List.map_cons, List.nodup_cons] at hnd
    by_cases hk : k = k'
    · subst hk
      have hsv : sv' = sv := by simpa [lookupKey] using h
      subst hsv
      have hnotin : lookupKey rest k = none := lookupKey_eq_none rest k hnd.1
      simp only [mergeEntries]
      rcases hg : getKey (.obj des) k with _ | dv
      · simp only [hg]
        rw [show setKey (.obj des) k sv' = JVal.obj (setEntries des k sv') from rfl,
          getKey_mergeEntries_not_mem rest (setEntries des k sv') k hnotin,
          lookupKey_setEntries_self des k sv']
        have hdes : lookupKey des k = none := hg
        rw [hdes]
      · simp only [hg]
        have hdes : lookupKey des k = some dv := hg
        rw [hdes]
        by_cases hm : (isMergeable sv' && isMergeable dv) = true
        · rw [if_pos hm,
            show setKey (.obj des) k (deepMerge sv' dv) =
              JVal.obj (setEntries des k (deepMerge sv' dv)) from rfl,
            getKey_mergeEntries_not_mem rest _ k hnotin,
            lookupKey_setEntries_self des k _]
          simp [hm]
        · rw [if_neg hm,
            show setKey (.obj des) k sv' = JVal.obj (setEntries des k sv') from rfl,
            getKey_mergeEntries_not_mem rest _ k hnotin,
            lookupKey_setEntries_self des k sv']
          simp [hm]
    · have hrest : lookupKey rest k = some sv := by
        simpa [lookupKey, if_neg hk] using h
      simp only [mergeEntries]
      rcases hg : getKey (.obj des) k' with _ | dv
      · simp only [hg]
        rw [show setKey (.obj des) k' sv' = JVal.obj (setEntries des k' sv') from rfl,
          ih (setEntries des k' sv') k sv hnd.2 hrest,
          lookupKey_setEntries_other des k' k sv' hk]
      · simp only [hg]
        by_cases hm : (isMergeable sv' && isMergeable dv) = true
        · rw [if_pos hm,
            show setKey (.obj des) k' (deepMerge sv' dv) =
              JVal.obj (setEntries des k' (deepMerge sv' dv)) from rfl,
            ih (setEntries des k' (deepMerge sv' dv)) k sv hnd.2 hrest,
            lookupKey_setEntries_other des k' k _ hk]
        · rw [if_neg hm,
            show setKey (.obj des) k' sv' = JVal.obj (setEntries des k' sv') from rfl,
            ih (setEntries des k' sv') k sv hnd.2 hrest,
            lookupKey_setEntries_other des k' k sv' hk]

/-- C2: the merge applied by every update is key-wise.  For object levels of
the state tree (their keys are distinct, as in any JS object): a key absent
from the incoming update is left untouched; for a key present in the
incoming update, if both the incoming value and the existing value are
non-array, non-null object-shaped, the stored result is their recursive
deep merge (incoming sub-keys overwrite or extend, absent sub-keys are
untouched, by the same characterization one level down), and otherwise —
arrays, scalars, primitives included — the incoming value replaces the
destination value outright.  And every `state_update` call allocates a
fresh top-level container, so the stored reference differs from the
previous state's. -/
theorem claim_C2 :
    (∀ (ses des : List (String × JVal)) (k : String),
      (ses.map Prod.fst).Nodup →
      (lookupKey ses k = none →
        getKey (deepMerge (.obj ses) (.obj des)) k = lookupKey des k) ∧
      (∀ sv, lookupKey ses k = some sv →
        getKey (deepMerge (.obj ses) (.obj des)) k =
          some (match lookupKey des k with
                | some dv =>
                  if isMergeable sv && isMergeable dv then deepMerge sv dv else sv
                | none => sv))) ∧
    (∀ (p : StateRef) (u : JVal) (r : StateRef),
      state_update_ref p u = some r → r.addr ≠ p.addr) := by
  constructor
  · intro ses des k hnd
    exact ⟨fun h => getKey_mergeEntries_not_mem ses des k h,
      fun sv h => getKey_mergeEntries_mem ses des k sv hnd h⟩
  · intro p u r h
    rcases hv : state_update p.val u with _ | v
    · rw [state_update_ref, hv] at h
      simp at h
    · rw [state_update_ref, hv] at h
      simp only [Option.map_some', Option.some.injEq] at h
      have : r.addr = p.addr + 1 := by rw [← h]
      omega

/-- Witness for C2 at concrete inputs: key `"a"` present in the update
(scalar, so replaced), key `"b"` absent (untouched), and a concrete
`state_update_ref` call whose new top-level allocation differs from the
old. -/
theorem claim_C2_witness :
    getKey (deepMerge (.obj [("a", .num 2), ("c", .num 7)])
        (.obj [("a", .num 1), ("b", .num 5)])) "a" = some (.num 2) ∧
    getKey (deepMerge (.obj [("a", .num 2), ("c", .num 7)])
        (.obj [("a", .num 1), ("b", .num 5)])) "b" = some (.num 5) ∧
    (StateRef.mk 4 (.obj [])).addr ≠ (StateRef.mk 3 (.obj [])).addr := by
  refine ⟨?_, ?_, ?_⟩
  · have h := ((claim_C2.1 [("a", .num 2), ("c", .num 7)] [("a", .num 1), ("b", .num 5)]
      "a" (by decide)).2 (.num 2) (by rfl))
    simpa [lookupKey] using h
  · have h := (claim_C2.1 [("a", .num 2), ("c", .num 7)] [("a", .num 1), ("b", .num 5)]
      "b" (by decide)).1 (by rfl)
    simpa [lookupKey] using h
  · exact claim_C2.2 ⟨3, .obj []⟩ (.obj []) ⟨4, .obj []⟩ rfl

/-! ## Idempotence of the merge -/

theorem overlayList_self (xs : List ℚ) : overlayList xs xs = xs := by
  induction xs with
  | nil => rfl
  | cons x t ih => simp [overlayList, ih]

theorem overlayList_idem (xs : List ℚ) :
    ∀ ds, overlayList xs (overlayList xs ds) = overlayList xs ds := by
  induction xs with
  | nil => intro ds; cases ds <;> simp [overlayList]
  | cons x t ih =>
    intro ds
    cases ds with
    | nil => simp [overlayList]
    | cons d dt => simp [overlayList, ih]

theorem overlayList_length (xs ds : List ℚ) : (overlayList xs ds).length = ds.length := by
  induction xs generalizing ds with
  | nil => cases ds <;> simp [overlayList]
  | cons x t ih =>
    cases ds with
    | nil => simp [overlayList]
    | cons d dt => simp [overlayList, ih]

theorem overlayList_eq_take_append (xs ds : List ℚ) :
    overlayList xs ds = xs.take ds.length ++ ds.drop xs.length := by
  induction xs generalizing ds with
  | nil => cases ds <;> simp [overlayList]
  | cons x t ih =>
    cases ds with
    | nil => simp [overlayList]
    | cons d dt => simp [overlayList, ih]

theorem exists_obj_of_isObj (d : JVal) (h : isObj d = true) :
    ∃ des, d = .obj des := by
  cases d with
  | obj es => exact ⟨es, rfl⟩
  | null => simp [isObj] at h
  | bool b => simp [isObj] at h
  | num q => simp [isObj] at h
  | str s => simp [isObj] at h
  | arr xs => simp [isObj] at h
  | typedArr xs => simp [isObj] at h

theorem isMergeable_deepMerge (s d : JVal) (h : isMergeable d = true) :
    isMergeable (deepMerge s d) = true := by
  cases d with
  | obj des =>
    cases s with
    | obj ses =>
      obtain ⟨des', hd⟩ := mergeEntries_obj ses des
      show isMergeable (mergeEntries ses (.obj des)) = true
      rw [hd]
      rfl
    | typedArr xs => rfl
    | null => rfl
    | bool b => rfl
    | num q => rfl
    | str s' => rfl
    | arr xs => rfl
  | typedArr ds =>
    cases s with
    | obj ses =>
      show isMergeable (mergeEntries ses (.typedArr ds)) = true
      rw [mergeEntries_nonobj ses (.typedArr ds) rfl]
      rfl
    | typedArr xs => rfl
    | null => rfl
    | bool b => rfl
    | num q => rfl
    | str s' => rfl
    | arr xs => rfl
  | null => simp [isMergeable] at h
  | bool b => simp [isMergeable] at h
  | num q => simp [isMergeable] at h
  | str s' => simp [isMergeable] at h
  | arr xs => simp [isMergeable] at h

theorem setKey_self (d : JVal) (k : String) (v : JVal) (h : getKey d k = some v) :
    setKey d k v = d := by
  cases d with
  | obj es =>
    show JVal.obj (setEntries es k v) = JVal.obj es
    rw [setEntries_self_of_lookup es k v h]
  | null => rfl
  | bool b => rfl
  | num q => rfl
  | str s => rfl
  | arr xs => rfl
  | typedArr xs => rfl

theorem mergeEntries_fixed (es' : List (String × JVal)) :
    ∀ d : JVal, (∀ p ∈ es', getKey d p.1 = some p.2) →
      (∀ p ∈ es', deepMerge p.2 p.2 = p.2) →
      mergeEntries es' d = d := by
  induction es' with
  | nil => intro d _ _; rfl
  | cons p rest ih =>
    obtain ⟨k, sv⟩ := p
    intro d hget hfix
    have h1 : getKey d k = some sv := hget (k, sv) (by simp)
    have hsv : deepMerge sv sv = sv := hfix (k, sv) (by simp)
    have hset : setKey d k sv = d := setKey_self d k sv h1
    simp only [mergeEntries, h1]
    by_cases hm : (isMergeable sv && isMergeable sv) = true
    · rw [if_pos hm, hsv, hset]
      exact ih d (fun q hq => hget q (List.mem_cons_of_mem _ hq))
        (fun q hq => hfix q (List.mem_cons_of_mem _ hq))
    · rw [if_neg hm, hset]
      exact ih d (fun q hq => hget q (List.mem_cons_of_mem _ hq))
        (fun q hq => hfix q (List.mem_cons_of_mem _ hq))

theorem deepMerge_self (v : JVal) (h : WF v) : deepMerge v v = v := by
  induction h with
  | null => rfl
  | bool b => rfl
  | num q => rfl
  | str s => rfl
  | typedArr xs =>
    show JVal.typedArr (overlayList xs xs) = JVal.typedArr xs
    rw [overlayList_self]
  | arr xs hx ih => rfl
  | obj es hnd hwf ih =>
    show mergeEntries es (.obj es) = .obj es
    exact mergeEntries_fixed es (.obj es)
      (fun p hp => lookupKey_of_mem_nodup es p.1 p.2 hnd hp)
      (fun p hp => ih p hp)

theorem mergeEntries_idem (es : List (String × JVal)) :
    ∀ des : List (String × JVal),
      (es.map Prod.fst).Nodup →
      (∀ p ∈ es, ∀ d, deepMerge p.2 (deepMerge p.2 d) = deepMerge p.2 d) →
      (∀ p ∈ es, deepMerge p.2 p.2 = p.2) →
      mergeEntries es (mergeEntries es (.obj des)) = mergeEntries es (.obj des) := by
  induction es with
  | nil => intro des _ _ _; rfl
  | cons p rest ih =>
    obtain ⟨k, sv⟩ := p
    intro des hnd hidem hself
    simp only [List.map_cons, List.nodup_cons] at hnd
    have hnotin : lookupKey rest k = none := lookupKey_eq_none rest k hnd.1
    have hselfsv : deepMerge sv sv = sv := hself (k, sv) (by simp)
    have hstep : ∀ d : JVal, mergeEntries ((k, sv) :: rest) d =
        mergeEntries rest (match getKey d k with
          | some dv =>
            if isMergeable sv && isMergeable dv then setKey d k (deepMerge sv dv)
            else setKey d k sv
          | none => setKey d k sv) := fun d => rfl
    have hstepNone : ∀ d : JVal, getKey d k = none →
        mergeEntries ((k, sv) :: rest) d = mergeEntries rest (setKey d k sv) := by
      intro d hd
      have harm : (match getKey d k with
          | some dv =>
            if isMergeable sv && isMergeable dv then setKey d k (deepMerge sv dv)
            else setKey d k sv
          | none => setKey d k sv) = setKey d k sv := by rw [hd]
      rw [hstep d, harm]
    have hstepSome : ∀ (d : JVal) (dv : JVal), getKey d k = some dv →
        mergeEntries ((k, sv) :: rest) d = mergeEntries rest
          (if isMergeable sv && isMergeable dv then setKey d k (deepMerge sv dv)
           else setKey d k sv) := by
      intro d dv hd
      have harm : (match getKey d k with
          | some dv =>
            if isMergeable sv && isMergeable dv then setKey d k (deepMerge sv dv)
            else setKey d k sv
          | none => setKey d k sv) =
          (if isMergeable sv && isMergeable dv then setKey d k (deepMerge sv dv)
           else setKey d k sv) := by rw [hd]
      rw [hstep d, harm]
    have ihApply : ∀ S' : List (String × JVal),
        mergeEntries rest (mergeEntries rest (.obj S')) = mergeEntries rest (.obj S') :=
      fun S' => ih S' hnd.2 (fun q hq d => hidem q (List.mem_cons_of_mem _ hq) d)
        (fun q hq => hself q (List.mem_cons_of_mem _ hq))
    rcases hg : getKey (.obj des) k with _ | dv
    · rw [hstepNone (.obj des) hg,
        show setKey (.obj des) k sv = JVal.obj (setEntries des k sv) from rfl]
      have hD1 : getKey (mergeEntries rest (.obj (setEntries des k sv))) k = some sv := by
        rw [getKey_mergeEntries_not_mem rest _ k hnotin]
        exact lookupKey_setEntries_self des k sv
      rw [hstepSome (mergeEntries rest (.obj (setEntries des k sv))) sv hD1]
      by_cases hb : (isMergeable sv && isMergeable sv) = true
      · rw [if_pos hb, hselfsv, setKey_self _ _ _ hD1]
        exact ihApply (setEntries des k sv)
      · rw [if_neg hb, setKey_self _ _ _ hD1]
        exact ihApply (setEntries des k sv)
    · by_cases hm : (isMergeable sv && isMergeable dv) = true
      · rw [hstepSome (.obj des) dv hg, if_pos hm,
          show setKey (.obj des) k (deepMerge sv dv) =
            JVal.obj (setEntries des k (deepMerge sv dv)) from rfl]
        have hD1 : getKey (mergeEntries rest (.obj (setEntries des k (deepMerge sv dv)))) k =
            some (deepMerge sv dv) := by
          rw [getKey_mergeEntries_not_mem rest _ k hnotin]
          exact lookupKey_setEntries_self des k _
        rw [hstepSome (mergeEntries rest (.obj (setEntries des k (deepMerge sv dv))))
          (deepMerge sv dv) hD1]
        have hx : (isMergeable sv && isMergeable (deepMerge sv dv)) = true := by
          have hm' := hm
          rw [Bool.and_eq_true] at hm'
          rw [hm'.1, isMergeable_deepMerge sv dv hm'.2]
          rfl
        rw [if_pos hx, hidem (k, sv) (by simp) dv, setKey_self _ _ _ hD1]
        exact ihApply (setEntries des k (deepMerge sv dv))
      · rw [hstepSome (.obj des) dv hg, if_neg hm,
          show setKey (.obj des) k sv = JVal.obj (setEntries des k sv) from rfl]
        have hD1 : getKey (mergeEntries rest (.obj (setEntries des k sv))) k = some sv := by
          rw [getKey_mergeEntries_not_mem rest _ k hnotin]
          exact lookupKey_setEntries_self des k sv
        rw [hstepSome (mergeEntries rest (.obj (setEntries des k sv))) sv hD1]
        by_cases hb : (isMergeable sv && isMergeable sv) = true
        · rw [if_pos hb, hselfsv, setKey_self _ _ _ hD1]
          exact ihApply (setEntries des k sv)
        · rw [if_neg hb, setKey_self _ _ _ hD1]
          exact ihApply (setEntries des k sv)

/-- Merging the same well-formed update twice is the same as merging it once. -/
theorem deepMerge_idem (s : JVal) (hs : WF s) :
    ∀ d, deepMerge s (deepMerge s d) = deepMerge s d := by
  induction hs with
  | null => intro d; rfl
  | bool b => intro d; rfl
  | num q => intro d; rfl
  | str s' => intro d; rfl
  | arr xs hx ih => intro d; rfl
  | typedArr xs =>
    intro d
    cases d with
    | typedArr ds =>
      show JVal.typedArr (overlayList xs (overlayList xs ds)) = JVal.typedArr (overlayList xs ds)
      rw [overlayList_idem xs ds]
    | obj des => rfl
    | null => rfl
    | bool b => rfl
    | num q => rfl
    | str s2 => rfl
    | arr ys => rfl
  | obj es hnd hwf ih =>
    intro d
    by_cases hd : isObj d = true
    · obtain ⟨des, rfl⟩ := exists_obj_of_isObj d hd
      show mergeEntries es (mergeEntries es (.obj des)) = mergeEntries es (.obj des)
      exact mergeEntries_idem es des hnd (fun p hp d' => ih p hp d')
        (fun p hp => deepMerge_self p.2 (hwf p hp))
    · have hd' : isObj d = false := by
        cases hB : isObj d with
        | true => exact absurd hB hd
        | false => rfl
      show mergeEntries es (mergeEntries es d) = mergeEntries es d
      rw [mergeEntries_nonobj es d hd', mergeEntries_nonobj es d hd']

/-- A merge into an object destination yields an object. -/
theorem deepMerge_obj_dest (s : JVal) (des : List (String × JVal)) :
    ∃ des', deepMerge s (.obj des) = .obj des' := by
  cases s with
  | obj ses => exact mergeEntries_obj ses des
  | typedArr xs => exact ⟨des, rfl⟩
  | null => exact ⟨des, rfl⟩
  | bool b => exact ⟨des, rfl⟩
  | num q => exact ⟨des, rfl⟩
  | str s' => exact ⟨des, rfl⟩
  | arr xs => exact ⟨des, rfl⟩

/-! ## Well-formedness plumbing for `state_update` -/

theorem WF_obj_inv (es : List (String × JVal)) (h : WF (.obj es)) :
    (es.map Prod.fst).Nodup ∧ ∀ p ∈ es, WF p.2 := by
  cases h with
  | obj _ h1 h2 => exact ⟨h1, h2⟩

theorem lookupKey_mem (es : List (String × JVal)) (k : String) (v : JVal)
    (h : lookupKey es k = some v) : (k, v) ∈ es := by
  induction es with
  | nil => simp [lookupKey] at h
  | cons p rest ih =>
    obtain ⟨k', v'⟩ := p
    by_cases h2 : k = k'
    · subst h2
      simp [lookupKey] at h
      subst h
      simp
    · simp only [lookupKey, if_neg h2] at h
      exact List.mem_cons_of_mem _ (ih h)

theorem WF_arr_map_num {α : Type} (xs : List α) (f : α → ℚ) :
    WF (.arr (xs.map fun a => JVal.num (f a))) := by
  refine WF.arr _ ?_
  intro x hx
  obtain ⟨a, _, rfl⟩ := List.mem_map.mp hx
  exact WF.num _

theorem WF_grid_toJVal (g : Grid) : WF g.toJVal := by
  refine WF.obj _ (by simp) ?_
  intro p hp
  rcases List.mem_cons.mp hp with heq | hp2
  · rw [heq]
    exact WF.typedArr _
  · rcases List.mem_cons.mp hp2 with heq | hp3
    · rw [heq]
      exact WF_arr_map_num g.shape (fun n => (n : ℚ))
    · cases hp3

theorem WF_vector_toJVal (v : Vector) : WF v.toJVal := by
  refine WF.obj _ (by simp) ?_
  intro p hp
  rcases List.mem_cons.mp hp with heq | hp2
  · rw [heq]
    exact WF_arr_map_num v.coords (fun a => a)
  · cases hp2

theorem WF_path_toJVal (p : Path) : WF p.toJVal := by
  refine WF.obj _ (by simp) ?_
  intro q hq
  rcases List.mem_cons.mp hq with heq | hq2
  · rw [heq]
    refine WF.arr _ ?_
    intro x hx
    obtain ⟨pt, _, rfl⟩ := List.mem_map.mp hx
    refine WF.arr _ ?_
    intro y hy
    rcases List.mem_cons.mp hy with h3 | h3
    · rw [h3]; exact WF.num _
    · rcases List.mem_cons.mp h3 with h4 | h4
      · rw [h4]; exact WF.num _
      · cases h4
  · cases hq2

theorem WF_costmap_toJVal (c : Costmap) : WF c.toJVal := by
  refine WF.obj _ (by simp) ?_
  intro p hp
  rcases List.mem_cons.mp hp with heq | hp2
  · rw [heq]
    exact WF_grid_toJVal c.grid
  · rcases List.mem_cons.mp hp2 with heq | hp3
    · rw [heq]
      exact WF_vector_toJVal c.origin
    · rcases List.mem_cons.mp hp3 with heq | hp4
      · rw [heq]; exact WF.num _
      · rcases List.mem_cons.mp hp4 with heq | hp5
        · rw [heq]; exact WF.num _
        · cases hp5

theorem WF_drawable_toJVal (d : Drawable) : WF d.toJVal := by
  cases d with
  | costmap c => exact WF_costmap_toJVal c
  | vector v => exact WF_vector_toJVal v
  | grid g => exact WF_grid_toJVal g
  | path p => exact WF_path_toJVal p

theorem decodeDrawableEntry_WF (v w : JVal) (h : decodeDrawableEntry v = some w) :
    WF w := by
  unfold decodeDrawableEntry at h
  rcases hd : decode (wireToEncoded v) with dbl | _ | _
  · rw [hd] at h
    simp only [Option.some.injEq] at h
    rw [← h]
    exact WF_drawable_toJVal dbl
  · rw [hd] at h
    simp only [Option.some.injEq] at h
    rw [← h]
    exact WF.str _
  · rw [hd] at h
    simp at h

theorem mapM_entries_spec (es : List (String × JVal)) :
    ∀ es', (es.mapM fun p => (decodeDrawableEntry p.2).map fun w => (p.1, w)) = some es' →
      es'.map Prod.fst = es.map Prod.fst ∧
      ∀ q ∈ es', ∃ p ∈ es, decodeDrawableEntry p.2 = some q.2 := by
  induction es with
  | nil =>
    intro es' h
    simp only [List.mapM_nil, pure, Option.some.injEq] at h
    subst h
    exact ⟨rfl, by simp⟩
  | cons p rest ih =>
    intro es' h
    rw [List.mapM_cons] at h
    rcases h1 : decodeDrawableEntry p.2 with _ | w
    · rw [h1] at h
      simp at h
    · rw [h1] at h
      rcases h2 : rest.mapM (fun p => (decodeDrawableEntry p.2).map fun w => (p.1, w))
        with _ | t
      · rw [h2] at h
        simp at h
      · rw [h2] at h
        simp only [Option.map_some', Option.pure_def, Option.bind_eq_bind,
          Option.some_bind, Option.some.injEq] at h
        subst h
        obtain ⟨hk, hv⟩ := ih t h2
        refine ⟨by simp [hk], ?_⟩
        intro q hq
        rcases List.mem_cons.mp hq with heq | hq2
        · refine ⟨p, by simp, ?_⟩
          rw [heq]
          exact h1
        · obtain ⟨p', hp', hd'⟩ := hv q hq2
          exact ⟨p', List.mem_cons_of_mem _ hp', hd'⟩

theorem decodeDrawables_WF (d dd : JVal) (hd : WF d)
    (h : decodeDrawables d = some dd) : WF dd := by
  cases d with
  | obj es =>
    simp only [decodeDrawables] at h
    rcases h2 : es.mapM (fun p => (decodeDrawableEntry p.2).map fun w => (p.1, w))
      with _ | es'
    · rw [h2] at h
      simp at h
    · rw [h2] at h
      simp only [Option.map_some', Option.some.injEq] at h
      subst h
      obtain ⟨hk, hv⟩ := mapM_entries_spec es es' h2
      obtain ⟨hnd, _⟩ := WF_obj_inv es hd
      refine WF.obj _ (by rw [hk]; exact hnd) ?_
      intro q hq
      obtain ⟨p', _, hd'⟩ := hv q hq
      exact decodeDrawableEntry_WF p'.2 q.2 hd'
  | null => simp only [decodeDrawables, Option.some.injEq] at h; rw [← h]; exact WF.obj [] (by simp) (by simp)
  | bool b => simp only [decodeDrawables, Option.some.injEq] at h; rw [← h]; exact WF.obj [] (by simp) (by simp)
  | num q => simp only [decodeDrawables, Option.some.injEq] at h; rw [← h]; exact WF.obj [] (by simp) (by simp)
  | str s => simp only [decodeDrawables, Option.some.injEq] at h; rw [← h]; exact WF.obj [] (by simp) (by simp)
  | arr xs => simp only [decodeDrawables, Option.some.injEq] at h; rw [← h]; exact WF.obj [] (by simp) (by simp)
  | typedArr xs => simp only [decodeDrawables, Option.some.injEq] at h; rw [← h]; exact WF.obj [] (by simp) (by simp)

theorem decodeDrawField_WF (u u' : JVal) (hu : WF u)
    (h : decodeDrawField u = some u') : WF u' := by
  rcases hg : getKey u "draw" with _ | d
  · have hD : decodeDrawField u = some u := by
      unfold decodeDrawField
      rw [hg]
    rw [hD] at h
    simp only [Option.some.injEq] at h
    rw [← h]
    exact hu
  · have hD : decodeDrawField u =
        (if truthy d = true then (decodeDrawables d).map fun dd => setKey u "draw" dd
         else some u) := by
      unfold decodeDrawField
      rw [hg]
    rw [hD] at h
    by_cases ht : truthy d = true
    · rw [if_pos ht] at h
      rcases hdd : decodeDrawables d with _ | dd
      · rw [hdd] at h
        simp at h
      · rw [hdd] at h
        simp only [Option.map_some', Option.some.injEq] at h
        have hobj : isObj u = true := by
          cases u with
          | obj es => rfl
          | null => simp [getKey] at hg
          | bool b => simp [getKey] at hg
          | num q => simp [getKey] at hg
          | str s => simp [getKey] at hg
          | arr xs => simp [getKey] at hg
          | typedArr xs => simp [getKey] at hg
        obtain ⟨es, rfl⟩ := exists_obj_of_isObj u hobj
        obtain ⟨hnd, hvals⟩ := WF_obj_inv es hu
        have hdWF : WF d := hvals _ (lookupKey_mem es "draw" d hg)
        have hddWF : WF dd := decodeDrawables_WF d dd hdWF hdd
        rw [← h]
        refine WF.obj _ (nodup_setEntries es "draw" dd hnd) ?_
        intro p hp
        rcases mem_setEntries_val es "draw" dd p hp with h2 | h2
        · rw [h2]
          exact hddWF
        · exact hvals p h2
    · rw [if_neg ht] at h
      simp only [Option.some.injEq] at h
      rw [← h]
      exact hu

/-- C8: applying the same update twice in sequence yields a state tree
equal to applying it once.  The state tree is an object, and the update is
any well-formed runtime value (every JSON-parsed payload is); the `draw`
decode is deterministic, so the second application merges the same decoded
update into the already-merged tree, and the merge is idempotent. -/
theorem claim_C8 (des : List (String × JVal)) (u S1 : JVal) (hu : WF u)
    (h : state_update (.obj des) u = some S1) :
    state_update S1 u = some S1 := by
  rcases hd : decodeDrawField u with _ | u'
  · rw [state_update, hd] at h
    simp at h
  · rw [state_update, hd] at h
    simp only [Option.map_some', Option.some.injEq] at h
    rw [show spreadCopy (.obj des) = JVal.obj des from rfl] at h
    obtain ⟨es1, hes1⟩ := deepMerge_obj_dest u' des
    have hS1 : S1 = .obj es1 := by
      rw [← h, hes1]
      rfl
    have hu' : WF u' := decodeDrawField_WF u u' hu hd
    rw [state_update, hd]
    simp only [Option.map_some', Option.some.injEq]
    rw [hS1]
    show spreadCopy (deepMerge u' (spreadCopy (.obj es1))) = JVal.obj es1
    rw [show spreadCopy (.obj es1) = JVal.obj es1 from rfl]
    have hfix : deepMerge u' (.obj es1) = .obj es1 := by
      have hidem := deepMerge_idem u' hu' (.obj des)
      rw [hes1] at hidem
      exact hidem
    rw [hfix]
    rfl

/-- Witness for C8: a concrete scalar update applied to a concrete state;
re-applying it to the merged result is a no-op. -/
theorem claim_C8_witness :
    state_update (.obj [("a", .num 2), ("b", .num 3)])
        (.obj [("a", .num 2), ("b", .num 3)]) =
      some (.obj [("a", .num 2), ("b", .num 3)]) := by
  have hwf : WF (.obj [("a", JVal.num 2), ("b", JVal.num 3)]) := by
    refine WF.obj _ (by simp) ?_
    intro p hp
    rcases List.mem_cons.mp hp with heq | hp2
    · rw [heq]; exact WF.num _
    · rcases List.mem_cons.mp hp2 with heq | hp3
      · rw [heq]; exact WF.num _
      · cases hp3
  exact claim_C8 [("a", .num 1)] (.obj [("a", .num 2), ("b", .num 3)])
    (.obj [("a", .num 2), ("b", .num 3)]) hwf rfl

/-- Merging a single-entry object into a single-entry object at the same
key with both values object-shaped recurses into the values. -/
theorem deepMerge_single_obj (k : String) (sv dv : JVal)
    (hsv : isMergeable sv = true) (hdv : isMergeable dv = true) :
    deepMerge (.obj [(k, sv)]) (.obj [(k, dv)]) = .obj [(k, deepMerge sv dv)] := by
  show mergeEntries [(k, sv)] (.obj [(k, dv)]) = _
  have hg : getKey (JVal.obj [(k, dv)]) k = some dv := by
    show lookupKey [(k, dv)] k = some dv
    simp [lookupKey]
  simp only [mergeEntries, hg, hsv, hdv, Bool.and_self, if_true]
  show setKey (JVal.obj [(k, dv)]) k (deepMerge sv dv) = JVal.obj [(k, deepMerge sv dv)]
  simp [setKey, setEntries]

/-- C10 (implicit): when the previous state and the incoming update both
hold an object-shaped value at the same key under `draw` — two decoded
Costmap instances — the merge recurses into the instances field by field
instead of replacing the stored entry; the typed `data` arrays are merged
element-wise by index, so the stored grid's numeric array keeps the
previously stored length even when the incoming shape and payload differ:
excess incoming elements are dropped and excess old elements persist
(the merged data is the incoming prefix up to the old length followed by
the old tail). -/
theorem claim_C10 (c1 c2 : Costmap) (k : String) :
    deepMerge (.obj [("draw", .obj [(k, c2.toJVal)])])
        (.obj [("draw", .obj [(k, c1.toJVal)])]) =
      .obj [("draw", .obj [(k, mergedCostmapJ c2 c1)])] ∧
    deepMerge c2.toJVal c1.toJVal = mergedCostmapJ c2 c1 ∧
    (overlayList c2.grid.data.toListQ c1.grid.data.toListQ).length =
      c1.grid.data.toListQ.length ∧
    overlayList c2.grid.data.toListQ c1.grid.data.toListQ =
      c2.grid.data.toListQ.take c1.grid.data.toListQ.length ++
        c1.grid.data.toListQ.drop c2.grid.data.toListQ.length := by
  have hinner : deepMerge c2.toJVal c1.toJVal = mergedCostmapJ c2 c1 := by
    simp [Costmap.toJVal, Grid.toJVal, Vector.toJVal, mergedCostmapJ, mergedGridJ,
      deepMerge, mergeEntries, getKey, lookupKey, setKey, setEntries, isMergeable]
  refine ⟨?_, hinner, overlayList_length _ _, overlayList_eq_take_append _ _⟩
  have houter : deepMerge (JVal.obj [(k, c2.toJVal)]) (JVal.obj [(k, c1.toJVal)]) =
      JVal.obj [(k, mergedCostmapJ c2 c1)] := by
    rw [deepMerge_single_obj k c2.toJVal c1.toJVal (by rw [Costmap.toJVal]; rfl)
      (by rw [Costmap.toJVal]; rfl), hinner]
  rw [deepMerge_single_obj "draw" (JVal.obj [(k, c2.toJVal)])
    (JVal.obj [(k, c1.toJVal)]) rfl rfl, houter]

end Dimos
